import Mathlib

/-
Shallow embedding of `create_recordio_coco.py`: a single-pass script that
converts a COCO-style JSON (top-level keys "images", "annotations",
"categories") plus a directory of image files into an indexed RecordIO
container (`coco.rec` / `coco.idx`).

Conventions of the embedding:
* the parsed JSON is a `Dataset` whose three top-level keys may each be
  absent (`none`); the key "annotations" is held in the field `anns` and
  "categories" in `cats_` (Lean-side names);
* Python dicts built by sequential assignment are embedded as functions
  built by folding function updates over the list, so a later assignment
  to the same key shadows an earlier one, exactly as in CPython;
* the image directory is a partial map `fs : String → Option Bytes` from
  joined paths to file contents; a `none` result is the `IOError` of
  `open(...)` (script line 48);
* `random.shuffle` is embedded as an explicit `shuffler` parameter
  standing for the permutation the PRNG applies at the current seed;
* each unhandled Python exception becomes a constructor of `Err`, and the
  run result records which files/entries had been written when it was
  raised.
-/

set_option autoImplicit false

namespace Coco

/-- Raw image bytes, abstracted as the list of byte values read by `fin.read()`. -/
abbrev Bytes := List Nat

/-- An entry of the top-level "images" array of the JSON (fields read by the script). -/
structure Image where
  id : Int
  file_name : String
  width : Int
  height : Int
deriving DecidableEq, Repr

/-- An entry of the top-level "annotations" array; `bbox` is the raw JSON number array. -/
structure Ann where
  id : Int
  image_id : Int
  category_id : Int
  bbox : List Int
deriving DecidableEq, Repr

/-- An entry of the top-level "categories" array. -/
structure Category where
  id : Int
  name : String
deriving DecidableEq, Repr

/-- The parsed JSON object: each top-level key may be absent (`none`).
`anns` holds the "annotations" array and `cats_` the "categories" array. -/
structure Dataset where
  images : Option (List Image)
  anns : Option (List Ann)
  cats_ : Option (List Category)
deriving DecidableEq, Repr

/-- The unhandled Python exceptions the script can die with: a JSON parse
failure (line 20), a missing dict key (line 43), a failed file open
(line 48), and a failed category lookup `cats[ann["category_id"]]` (line 59). -/
inductive Err where
  | parseError
  | keyError (key : String)
  | ioError (path : String)
  | catKeyError (category_id : Int)
deriving DecidableEq, Repr

/-- One step of building the `imgToAnns` defaultdict:
`imgToAnns[ann['image_id']].append(ann)` (script line 27). -/
def addToGroup (m : Int → List Ann) (a : Ann) : Int → List Ann :=
  fun k => if k = a.image_id then m k ++ [a] else m k

/-- The `imgToAnns` defaultdict mapping an image id to the list of its
grouped records, in original order (script lines 23, 25–27). -/
def imgToAnns (l : List Ann) : Int → List Ann :=
  l.foldl addToGroup (fun _ => [])

/-- The `anns` by-id dict (script line 28); built but never read afterwards. -/
def anns (l : List Ann) : Int → Option Ann :=
  l.foldl (fun m a => fun k => if k = a.id then some a else m k) (fun _ => none)

/-- The `imgs` by-id dict (script line 32); built but never read afterwards. -/
def imgs (l : List Image) : Int → Option Image :=
  l.foldl (fun m im => fun k => if k = im.id then some im else m k) (fun _ => none)

/-- The state of the `cats` dict after running `cats[cat['id']] = i + 1`
for the remaining categories, `i` counting from `i0` (script lines 34–36). -/
def catsFrom (m : Int → Option Nat) (i0 : Nat) : List Category → (Int → Option Nat)
  | [] => m
  | c :: rest => catsFrom (fun k => if k = c.id then some (i0 + 1) else m k) (i0 + 1) rest

/-- The `cats` dict: category id → dense 1-based label (script lines 34–36). -/
def cats (cs : List Category) : Int → Option Nat :=
  catsFrom (fun _ => none) 0 cs

/-- `os.path.join(in_img_path, filePath)` for the relative paths of this dataset. -/
def pathJoin (dir path : String) : String := dir ++ "/" ++ path

/-- The `labels` list collected for one image group (script lines 56–59);
`cats[ann["category_id"]]` raises `KeyError` on a missing category id. -/
def labelsOf (cm : Int → Option Nat) : List Ann → Except Err (List Int)
  | [] => .ok []
  | a :: rest =>
    match cm a.category_id with
    | none => .error (.catKeyError a.category_id)
    | some v =>
      match labelsOf cm rest with
      | .error e => .error e
      | .ok tail => .ok ((v : Int) :: tail)

/-- The flattened `mergedBboxes` list (script lines 62–64). -/
def mergedBboxes (group : List Ann) : List Int :=
  (group.map Ann.bbox).flatten

/-- The numeric field `finalData = [imgID, imgWidth, imgHeight] + labels +
mergedBboxes` of one record (script lines 50–66). -/
def finalData (cm : Int → Option Nat) (gs : Int → List Ann) (img : Image) :
    Except Err (List Int) :=
  match labelsOf cm (gs img.id) with
  | .error e => .error e
  | .ok labels =>
      .ok ([img.id, img.width, img.height] ++ labels ++ mergedBboxes (gs img.id))

/-- `mx.recordio.IRHeader(flag, label, id, id2)` as built on script line 68. -/
structure IRHeader where
  flag : Int
  label : List Int
  id : Int
  id2 : Int
deriving DecidableEq, Repr

/-- The result of `mx.recordio.pack(header, imgData)`: the header together
with the raw image bytes (script line 69). -/
structure Packed where
  header : IRHeader
  data : Bytes
deriving DecidableEq, Repr

/-- The main loop (script lines 46–70), processing the images from output
index `i` on: for each image it opens and reads the file, builds
`finalData`, packs it with header `IRHeader(0, finalData, i, 0)` and calls
`record.write_idx(i, s)`.  The first unhandled exception stops the loop;
the returned list holds the `(index key, packed record)` entries actually
written before that point. -/
def processImages (fs : String → Option Bytes) (dir : String)
    (cm : Int → Option Nat) (gs : Int → List Ann) :
    List Image → Nat → List (Nat × Packed) × Except Err Unit
  | [], _ => ([], .ok ())
  | img :: rest, i =>
    match fs (pathJoin dir img.file_name) with
    | none => ([], .error (.ioError (pathJoin dir img.file_name)))
    | some imgData =>
      match finalData cm gs img with
      | .error e => ([], .error e)
      | .ok nums =>
        let s : Packed := ⟨⟨0, nums, (i : Int), 0⟩, imgData⟩
        let tailRes := processImages fs dir cm gs rest (i + 1)
        ((i, s) :: tailRes.1, tailRes.2)

instance {ε α : Type} [DecidableEq ε] [DecidableEq α] : DecidableEq (Except ε α) := fun
  | .error a, .error b => decidable_of_iff (a = b) (by simp)
  | .error _, .ok _ => isFalse (by simp)
  | .ok _, .error _ => isFalse (by simp)
  | .ok a, .ok b => decidable_of_iff (a = b) (by simp)

/-- The observable outcome of one run: whether `coco.rec`/`coco.idx` were
ever created (script line 40), the container entries written, and the exit
status. -/
structure RunResult where
  containerCreated : Bool
  entries : List (Nat × Packed)
  result : Except Err Unit
deriving DecidableEq, Repr

/-- The script body after argv handling: `parsed` is the outcome of
`json.load` (`none` = parse failure, script line 20), `fs` the image
directory, `dir` the `in_img_path` argument, `doShuffle` the flag from
lines 11–13 and `shuffler` the permutation `random.shuffle` applies at the
current PRNG state (line 45).  Note that line 43 reads `dataset['images']`
without an `in`-guard, unlike lines 25/30/34. -/
def run (parsed : Option Dataset) (fs : String → Option Bytes) (dir : String)
    (doShuffle : Bool) (shuffler : List Image → List Image) : RunResult :=
  match parsed with
  | none => ⟨false, [], .error .parseError⟩
  | some ds =>
    let cm := cats (ds.cats_.getD [])
    let gs := imgToAnns (ds.anns.getD [])
    match ds.images with
    | none => ⟨true, [], .error (.keyError "images")⟩
    | some imgs0 =>
      let images := if doShuffle then shuffler imgs0 else imgs0
      let p := processImages fs dir cm gs images 0
      ⟨true, p.1, p.2⟩

/-- Lines 11–13: shuffling is on iff `len(sys.argv) > 4`, i.e. iff a fourth
positional argument follows the three required ones. -/
def shuffleFlag (argv : List String) : Bool := decide (argv.length > 4)

/-- The whole script: `argv.get 2` (0-based) is `in_img_path`. -/
def main (argv : List String) (parsed : Option Dataset)
    (fs : String → Option Bytes) (shuffler : List Image → List Image) : RunResult :=
  run parsed fs (argv.getD 2 "") (shuffleFlag argv) shuffler

/-- The entry the loop writes for image `img` at output index `i`, assuming
its file read and record build succeed. -/
def entryOf (fs : String → Option Bytes) (dir : String) (cm : Int → Option Nat)
    (gs : Int → List Ann) (i : Nat) (img : Image) : Nat × Packed :=
  (i, ⟨⟨0, (finalData cm gs img).toOption.getD [], (i : Int), 0⟩,
       (fs (pathJoin dir img.file_name)).getD []⟩)

/-- The container contents of a fully successful loop from index `i` on. -/
def entriesSpec (fs : String → Option Bytes) (dir : String) (cm : Int → Option Nat)
    (gs : Int → List Ann) : List Image → Nat → List (Nat × Packed)
  | [], _ => []
  | img :: rest, i => entryOf fs dir cm gs i img :: entriesSpec fs dir cm gs rest (i + 1)

/-- The distinct elements of a list in order of first appearance. -/
def firstSeen (l : List Int) : List Int :=
  l.foldl (fun acc x => if x ∈ acc then acc else acc ++ [x]) []

/-- Claim-side statement (spec wording): the category remap sends the
`j`-th distinct category id, in order of first appearance, to `j + 1`,
and there are exactly as many distinct ids as categories — i.e. it is a
bijection from the distinct ids in first-seen order onto `1..K`, where
`K` is the length of the categories list. -/
def bijectionClaim (cs : List Category) : Prop :=
  (firstSeen (cs.map Category.id)).length = cs.length ∧
  ∀ j (hj : j < (firstSeen (cs.map Category.id)).length),
    cats cs ((firstSeen (cs.map Category.id)).get ⟨j, hj⟩) = some (j + 1)

/-- Fixture: the category of the spec's single-image scenario. -/
def cat5x : Category := ⟨5, "x"⟩

/-- Fixture: the single scenario record, category 5, bbox `[1,2,3,4]`. -/
def ann1 : Ann := ⟨1, 1, 5, [1, 2, 3, 4]⟩

/-- Fixture: a grouped record whose category id 9 is not in the dict. -/
def annBad : Ann := ⟨2, 1, 9, [0, 0, 1, 1]⟩

/-- Fixture: a grouped record whose `image_id` 99 matches no image. -/
def annOrphan : Ann := ⟨9, 99, 5, [1, 1, 1, 1]⟩

/-- Fixture: the scenario image, id 1, 10×20. -/
def img1 : Image := ⟨1, "a.jpg", 10, 20⟩

/-- Fixture: a second image with the same id 1 but its own file and size. -/
def img1b : Image := ⟨1, "b.jpg", 30, 40⟩

/-- Fixture: an image whose file is absent from the directory. -/
def imgMissing : Image := ⟨3, "zzz.jpg", 1, 1⟩

/-- Fixture: an image directory holding `a.jpg` and `b.jpg` under `d/`. -/
def fs10 : String → Option Bytes :=
  fun p => if p = "d/a.jpg" then some [7] else if p = "d/b.jpg" then some [8] else none

/-- The defaultdict built by appending is the order-preserving filter. -/
theorem foldl_addToGroup (l : List Ann) (m : Int → List Ann) (k : Int) :
    l.foldl addToGroup m k = m k ++ l.filter (fun a => a.image_id = k) := by
  induction l generalizing m with
  | nil => simp
  | cons a rest ih =>
    rw [List.foldl_cons, ih]
    by_cases h : a.image_id = k
    · simp [addToGroup, List.filter_cons, h]
    · have h' : ¬ (k = a.image_id) := fun hk => h hk.symm
      simp [addToGroup, List.filter_cons, h, h']

/-- `imgToAnns` groups by `image_id`, preserving the original order. -/
theorem imgToAnns_eq_filter (l : List Ann) (k : Int) :
    imgToAnns l k = l.filter (fun a => a.image_id = k) := by
  simpa using foldl_addToGroup l (fun _ => []) k

/-- A key not among the remaining category ids keeps its old dict value. -/
theorem catsFrom_not_mem (cs : List Category) (m : Int → Option Nat) (i0 : Nat) (k : Int)
    (h : k ∉ cs.map Category.id) : catsFrom m i0 cs k = m k := by
  induction cs generalizing m i0 with
  | nil => rfl
  | cons c rest ih =>
    simp only [List.map_cons, List.mem_cons, not_or] at h
    rw [catsFrom, ih _ _ h.2]
    simp [h.1]

/-- With pairwise-distinct ids the dict sends position `j`'s id to `i0 + j + 1`. -/
theorem catsFrom_get (cs : List Category) (m : Int → Option Nat) (i0 : Nat)
    (h : (cs.map Category.id).Nodup) (j : Nat) (hj : j < cs.length) :
    catsFrom m i0 cs ((cs.get ⟨j, hj⟩).id) = some (i0 + j + 1) := by
  induction cs generalizing m i0 j with
  | nil => exact absurd hj (by simp)
  | cons c rest ih =>
    rw [List.map_cons, List.nodup_cons] at h
    cases j with
    | zero =>
      have hg : ((c :: rest).get ⟨0, hj⟩) = c := rfl
      rw [hg, catsFrom, catsFrom_not_mem rest _ _ _ h.1]
      simp
    | succ j' =>
      have hj' : j' < rest.length := Nat.lt_of_succ_lt_succ hj
      have hg : ((c :: rest).get ⟨j' + 1, hj⟩) = rest.get ⟨j', hj'⟩ := rfl
      rw [hg, catsFrom]
      have := ih (fun k => if k = c.id then some (i0 + 1) else m k) (i0 + 1) h.2 j' hj'
      simpa [Nat.add_assoc, Nat.add_comm, Nat.add_left_comm] using this

/-- The `cats` dict at the id of the `j`-th category, when ids are distinct. -/
theorem cats_get (cs : List Category) (h : (cs.map Category.id).Nodup)
    (j : Nat) (hj : j < cs.length) :
    cats cs ((cs.get ⟨j, hj⟩).id) = some (j + 1) := by
  simpa using catsFrom_get cs (fun _ => none) 0 h j hj

/-- A key absent from the categories list is absent from the `cats` dict. -/
theorem cats_not_mem (cs : List Category) (k : Int) (h : k ∉ cs.map Category.id) :
    cats cs k = none :=
  catsFrom_not_mem cs (fun _ => none) 0 k h

/-- A successful `labels` loop yields exactly one mapped label per grouped
record, in group order, every lookup having succeeded. -/
theorem labelsOf_ok (cm : Int → Option Nat) (group : List Ann) (ls : List Int)
    (h : labelsOf cm group = .ok ls) :
    ls = group.map (fun a => (((cm a.category_id).getD 0 : Nat) : Int)) ∧
    ∀ a ∈ group, (cm a.category_id).isSome := by
  induction group generalizing ls with
  | nil =>
    simp only [labelsOf] at h
    cases h
    simp
  | cons a rest ih =>
    simp only [labelsOf] at h
    cases hc : cm a.category_id with
    | none => rw [hc] at h; cases h
    | some v =>
      rw [hc] at h
      cases hr : labelsOf cm rest with
      | error e => rw [hr] at h; cases h
      | ok tail =>
        rw [hr] at h
        cases h
        obtain ⟨h1, h2⟩ := ih tail hr
        refine ⟨?_, ?_⟩
        · simp [hc, h1]
        · intro b hb
          rcases List.mem_cons.mp hb with hb | hb
          · subst hb; simp [hc]
          · exact h2 b hb

/-- If every lookup of the group succeeds, so does the `labels` loop. -/
theorem labelsOf_isSome (cm : Int → Option Nat) (group : List Ann)
    (h : ∀ a ∈ group, (cm a.category_id).isSome) :
    labelsOf cm group = .ok (group.map (fun a => (((cm a.category_id).getD 0 : Nat) : Int))) := by
  induction group with
  | nil => rfl
  | cons a rest ih =>
    obtain ⟨v, hv⟩ := Option.isSome_iff_exists.mp (h a (List.mem_cons_self a rest))
    simp only [labelsOf, hv]
    rw [ih (fun b hb => h b (List.mem_cons_of_mem a hb))]
    simp [hv]

/-- A failing lookup in the group makes the `labels` loop raise `KeyError`
for some category id that is not in the dict. -/
theorem labelsOf_none (cm : Int → Option Nat) (group : List Ann)
    (h : ∃ a ∈ group, cm a.category_id = none) :
    ∃ c, cm c = none ∧ labelsOf cm group = .error (.catKeyError c) := by
  induction group with
  | nil => simp at h
  | cons a rest ih =>
    cases hc : cm a.category_id with
    | none => exact ⟨a.category_id, hc, by simp [labelsOf, hc]⟩
    | some v =>
      have hrest : ∃ b ∈ rest, cm b.category_id = none := by
        obtain ⟨b, hb, hbn⟩ := h
        rcases List.mem_cons.mp hb with hb | hb
        · subst hb; rw [hc] at hbn; cases hbn
        · exact ⟨b, hb, hbn⟩
      obtain ⟨c, hcn, hl⟩ := ih hrest
      exact ⟨c, hcn, by simp [labelsOf, hc, hl]⟩

/-- Decomposition of a successfully built numeric record field. -/
theorem finalData_ok (cm : Int → Option Nat) (gs : Int → List Ann) (img : Image)
    (nums : List Int) (h : finalData cm gs img = .ok nums) :
    nums = [img.id, img.width, img.height]
      ++ (gs img.id).map (fun a => (((cm a.category_id).getD 0 : Nat) : Int))
      ++ mergedBboxes (gs img.id) ∧
    ∀ a ∈ gs img.id, (cm a.category_id).isSome := by
  simp only [finalData] at h
  cases hl : labelsOf cm (gs img.id) with
  | error e => rw [hl] at h; cases h
  | ok labels =>
    rw [hl] at h
    cases h
    obtain ⟨h1, h2⟩ := labelsOf_ok cm _ labels hl
    exact ⟨by rw [h1], h2⟩

/-- An image whose group is empty gets the bare `[id, width, height]` record. -/
theorem finalData_empty (cm : Int → Option Nat) (gs : Int → List Ann) (img : Image)
    (h : gs img.id = []) :
    finalData cm gs img = .ok [img.id, img.width, img.height] := by
  simp [finalData, h, labelsOf, mergedBboxes]

/-- If every category lookup of the image's group succeeds the record builds. -/
theorem finalData_isSome (cm : Int → Option Nat) (gs : Int → List Ann) (img : Image)
    (h : ∀ a ∈ gs img.id, (cm a.category_id).isSome) :
    finalData cm gs img =
      .ok ([img.id, img.width, img.height]
        ++ (gs img.id).map (fun a => (((cm a.category_id).getD 0 : Nat) : Int))
        ++ mergedBboxes (gs img.id)) := by
  simp [finalData, labelsOf_isSome cm _ h]

/-- The numeric field only depends on the group at the image's own id. -/
theorem finalData_congr (cm : Int → Option Nat) (gs₁ gs₂ : Int → List Ann) (img : Image)
    (h : gs₁ img.id = gs₂ img.id) :
    finalData cm gs₁ img = finalData cm gs₂ img := by
  simp only [finalData, mergedBboxes, h]

theorem entriesSpec_length (fs : String → Option Bytes) (dir : String)
    (cm : Int → Option Nat) (gs : Int → List Ann) :
    ∀ (images : List Image) (n : Nat),
      (entriesSpec fs dir cm gs images n).length = images.length := by
  intro images
  induction images with
  | nil => intro n; rfl
  | cons img rest ih => intro n; simp [entriesSpec, ih]

theorem entriesSpec_get (fs : String → Option Bytes) (dir : String)
    (cm : Int → Option Nat) (gs : Int → List Ann) :
    ∀ (images : List Image) (n j : Nat) (hj : j < images.length)
      (hj' : j < (entriesSpec fs dir cm gs images n).length),
      (entriesSpec fs dir cm gs images n).get ⟨j, hj'⟩ =
        entryOf fs dir cm gs (n + j) (images.get ⟨j, hj⟩) := by
  intro images
  induction images with
  | nil => intro n j hj _; exact absurd hj (by simp)
  | cons img rest ih =>
    intro n j hj hj'
    cases j with
    | zero => simp [entriesSpec]
    | succ j' =>
      have hjr : j' < rest.length := Nat.lt_of_succ_lt_succ hj
      have hjr' : j' < (entriesSpec fs dir cm gs rest (n + 1)).length := by
        rw [entriesSpec_length]; exact hjr
      have hg : ((img :: rest).get ⟨j' + 1, hj⟩) = rest.get ⟨j', hjr⟩ := rfl
      have hg' : ((entriesSpec fs dir cm gs (img :: rest) n).get ⟨j' + 1, hj'⟩) =
          (entriesSpec fs dir cm gs rest (n + 1)).get ⟨j', hjr'⟩ := rfl
      rw [hg, hg', ih (n + 1) j' hjr hjr']
      have : n + 1 + j' = n + (j' + 1) := by omega
      rw [this]

/-- The written label/payload contents, per image in processed order. -/
theorem entriesSpec_map_content (fs : String → Option Bytes) (dir : String)
    (cm : Int → Option Nat) (gs : Int → List Ann) :
    ∀ (images : List Image) (n : Nat),
      (entriesSpec fs dir cm gs images n).map (fun e => (e.2.header.label, e.2.data)) =
        images.map (fun img => ((finalData cm gs img).toOption.getD [],
          (fs (pathJoin dir img.file_name)).getD [])) := by
  intro images
  induction images with
  | nil => intro n; rfl
  | cons img rest ih => intro n; simp [entriesSpec, entryOf, ih]

/-- When every file read and every category lookup succeeds, the loop runs
to completion and writes exactly the specified entries. -/
theorem processImages_ok (fs : String → Option Bytes) (dir : String)
    (cm : Int → Option Nat) (gs : Int → List Ann) :
    ∀ (images : List Image) (n : Nat),
      (∀ img ∈ images, (fs (pathJoin dir img.file_name)).isSome) →
      (∀ img ∈ images, ∀ a ∈ gs img.id, (cm a.category_id).isSome) →
      processImages fs dir cm gs images n = (entriesSpec fs dir cm gs images n, .ok ()) := by
  intro images
  induction images with
  | nil => intro n _ _; rfl
  | cons img rest ih =>
    intro n h1 h2
    obtain ⟨b, hb⟩ := Option.isSome_iff_exists.mp (h1 img (List.mem_cons_self img rest))
    have hfd := finalData_isSome cm gs img (h2 img (List.mem_cons_self img rest))
    have ihr := ih (n + 1) (fun i hi => h1 i (List.mem_cons_of_mem img hi))
      (fun i hi => h2 i (List.mem_cons_of_mem img hi))
    simp only [processImages, hb, hfd, ihr, entriesSpec, entryOf]
    simp [Except.toOption, ihr]

/-- A failing file open stops the loop: the entries written are exactly the
successful prefix, and the run dies with the `IOError` of that open. -/
theorem processImages_io_err (fs : String → Option Bytes) (dir : String)
    (cm : Int → Option Nat) (gs : Int → List Ann) (bad : Image) (post : List Image)
    (hbad : fs (pathJoin dir bad.file_name) = none) :
    ∀ (pre : List Image) (n : Nat),
      (∀ img ∈ pre, (fs (pathJoin dir img.file_name)).isSome) →
      (∀ img ∈ pre, ∀ a ∈ gs img.id, (cm a.category_id).isSome) →
      processImages fs dir cm gs (pre ++ bad :: post) n =
        (entriesSpec fs dir cm gs pre n, .error (.ioError (pathJoin dir bad.file_name))) := by
  intro pre
  induction pre with
  | nil => intro n _ _; simp [processImages, hbad, entriesSpec]
  | cons img rest ih =>
    intro n h1 h2
    obtain ⟨b, hb⟩ := Option.isSome_iff_exists.mp (h1 img (List.mem_cons_self img rest))
    have hfd := finalData_isSome cm gs img (h2 img (List.mem_cons_self img rest))
    have ihr := ih (n + 1) (fun i hi => h1 i (List.mem_cons_of_mem img hi))
      (fun i hi => h2 i (List.mem_cons_of_mem img hi))
    simp only [List.cons_append, processImages, hb, hfd, ihr, entriesSpec, entryOf]
    simp [Except.toOption, ihr]

/-- A failing record build stops the loop the same way, after the file of
the failing image was already read. -/
theorem processImages_build_err (fs : String → Option Bytes) (dir : String)
    (cm : Int → Option Nat) (gs : Int → List Ann) (bad : Image) (post : List Image)
    (b : Bytes) (hfs : fs (pathJoin dir bad.file_name) = some b)
    (e : Err) (hbad : finalData cm gs bad = .error e) :
    ∀ (pre : List Image) (n : Nat),
      (∀ img ∈ pre, (fs (pathJoin dir img.file_name)).isSome) →
      (∀ img ∈ pre, ∀ a ∈ gs img.id, (cm a.category_id).isSome) →
      processImages fs dir cm gs (pre ++ bad :: post) n =
        (entriesSpec fs dir cm gs pre n, .error e) := by
  intro pre
  induction pre with
  | nil => intro n _ _; simp [processImages, hfs, hbad, entriesSpec]
  | cons img rest ih =>
    intro n h1 h2
    obtain ⟨b', hb⟩ := Option.isSome_iff_exists.mp (h1 img (List.mem_cons_self img rest))
    have hfd := finalData_isSome cm gs img (h2 img (List.mem_cons_self img rest))
    have ihr := ih (n + 1) (fun i hi => h1 i (List.mem_cons_of_mem img hi))
      (fun i hi => h2 i (List.mem_cons_of_mem img hi))
    simp only [List.cons_append, processImages, hb, hfd, ihr, entriesSpec, entryOf]
    simp [Except.toOption, ihr]

/-- The loop only consults the group map at the processed images' own ids. -/
theorem processImages_congr (fs : String → Option Bytes) (dir : String)
    (cm : Int → Option Nat) (gs₁ gs₂ : Int → List Ann) :
    ∀ (images : List Image) (n : Nat),
      (∀ img ∈ images, gs₁ img.id = gs₂ img.id) →
      processImages fs dir cm gs₁ images n = processImages fs dir cm gs₂ images n := by
  intro images
  induction images with
  | nil => intro n _; rfl
  | cons img rest ih =>
    intro n h
    have hfd := finalData_congr cm gs₁ gs₂ img (h img (List.mem_cons_self img rest))
    have ihr := ih (n + 1) (fun i hi => h i (List.mem_cons_of_mem img hi))
    simp only [processImages, hfd, ihr]

/-- A successfully completed loop writes one entry per processed image,
with no distinctness assumption on the image ids. -/
theorem processImages_ok_length (fs : String → Option Bytes) (dir : String)
    (cm : Int → Option Nat) (gs : Int → List Ann) :
    ∀ (images : List Image) (n : Nat),
      (processImages fs dir cm gs images n).2 = .ok () →
      (processImages fs dir cm gs images n).1.length = images.length := by
  intro images
  induction images with
  | nil => intro n _; rfl
  | cons img rest ih =>
    intro n h
    cases hb : fs (pathJoin dir img.file_name) with
    | none => simp [processImages, hb] at h
    | some b =>
      cases hfd : finalData cm gs img with
      | error e => simp [processImages, hb, hfd] at h
      | ok nums =>
        simp only [processImages, hb, hfd] at h ⊢
        simpa using ih (n + 1) h

/-- Every index key written by the loop started at `n` is below
`n + `(number of processed images). -/
theorem entriesSpec_keys (fs : String → Option Bytes) (dir : String)
    (cm : Int → Option Nat) (gs : Int → List Ann) :
    ∀ (images : List Image) (n : Nat),
      ∀ e ∈ entriesSpec fs dir cm gs images n, e.1 < n + images.length := by
  intro images
  induction images with
  | nil => intro n e he; simp [entriesSpec] at he
  | cons img rest ih =>
    intro n e he
    rcases List.mem_cons.mp he with he | he
    · subst he; simp [entryOf]
    · have := ih (n + 1) e he
      simp only [List.length_cons]
      omega

/-- A failing `labels` loop makes `finalData` fail with the same error. -/
theorem finalData_err (cm : Int → Option Nat) (gs : Int → List Ann) (img : Image)
    (e : Err) (h : labelsOf cm (gs img.id) = .error e) :
    finalData cm gs img = .error e := by
  simp [finalData, h]

/-- Unfolding one run whose JSON parsed and whose "images" key is present. -/
theorem run_some_eq (ds : Dataset) (imgs0 : List Image) (fs : String → Option Bytes)
    (dir : String) (doShuffle : Bool) (shuffler : List Image → List Image)
    (himg : ds.images = some imgs0) :
    run (some ds) fs dir doShuffle shuffler =
      ⟨true,
       (processImages fs dir (cats (ds.cats_.getD [])) (imgToAnns (ds.anns.getD []))
         (if doShuffle then shuffler imgs0 else imgs0) 0).1,
       (processImages fs dir (cats (ds.cats_.getD [])) (imgToAnns (ds.anns.getD []))
         (if doShuffle then shuffler imgs0 else imgs0) 0).2⟩ := by
  cases ds with
  | mk io ao co =>
    cases himg
    rfl

/-- Removing a grouped record whose `image_id` is not the queried key does
not change that key's group. -/
theorem imgToAnns_erase_middle (xs ys : List Ann) (a : Ann) (k : Int)
    (h : a.image_id ≠ k) :
    imgToAnns (xs ++ a :: ys) k = imgToAnns (xs ++ ys) k := by
  simp [imgToAnns_eq_filter, List.filter_append, List.filter_cons, h]

/-- A list with pairwise-distinct elements is its own first-seen list. -/
theorem firstSeen_of_nodup (l : List Int) (h : l.Nodup) : firstSeen l = l := by
  have H : ∀ (l' acc : List Int), (∀ x ∈ l', x ∉ acc) → l'.Nodup →
      l'.foldl (fun acc x => if x ∈ acc then acc else acc ++ [x]) acc = acc ++ l' := by
    intro l'
    induction l' with
    | nil => intro acc _ _; simp
    | cons x rest ih =>
      intro acc hacc hnd
      rw [List.nodup_cons] at hnd
      have hx : x ∉ acc := hacc x (List.mem_cons_self x rest)
      simp only [List.foldl_cons, if_neg hx]
      rw [ih (acc ++ [x]) ?_ hnd.2]
      · simp
      · intro y hy hmem
        rcases List.mem_append.mp hmem with hmem | hmem
        · exact hacc y (List.mem_cons_of_mem x hy) hmem
        · rcases List.mem_singleton.mp hmem with rfl
          exact hnd.1 hy
  simpa [firstSeen] using H l [] (by simp) h

/-- C6: when the JSON file is missing or malformed (`json.load` fails),
the process aborts on the parse failure before any output exists: the
container files are never created and no entry is written. -/
theorem c6_parse_failure_aborts_before_output :
    ∀ (fs : String → Option Bytes) (dir : String) (doShuffle : Bool)
      (shuffler : List Image → List Image),
      run none fs dir doShuffle shuffler = ⟨false, [], .error .parseError⟩ := by
  intro fs dir doShuffle shuffler
  rfl

/-- C1, counterexample: on a JSON with no "images" key the run does not
complete normally with zero records — `dataset['images']` (script line 43)
raises `KeyError` after the container files were created empty. -/
theorem c1_counterexample_images_absent :
    (run (some ⟨none, none, none⟩) (fun _ => none) "d" false id).result ≠ Except.ok () ∧
    run (some ⟨none, none, none⟩) (fun _ => none) "d" false id =
      ⟨true, [], .error (.keyError "images")⟩ := by
  exact ⟨by decide, by decide⟩

/-- C1, amended: an absent "annotations" or "categories" key is treated as
"no entries" (the run is the one on the empty list), but an absent
"images" key raises `KeyError` at line 43, aborting the run with zero
records written after the container files were created. -/
theorem c1_amended_absent_keys :
    (∀ (io : Option (List Image)) (co : Option (List Category))
       (fs : String → Option Bytes) (dir : String) (b : Bool)
       (s : List Image → List Image),
       run (some ⟨io, none, co⟩) fs dir b s = run (some ⟨io, some [], co⟩) fs dir b s) ∧
    (∀ (io : Option (List Image)) (ao : Option (List Ann))
       (fs : String → Option Bytes) (dir : String) (b : Bool)
       (s : List Image → List Image),
       run (some ⟨io, ao, none⟩) fs dir b s = run (some ⟨io, ao, some []⟩) fs dir b s) ∧
    (∀ (ao : Option (List Ann)) (co : Option (List Category))
       (fs : String → Option Bytes) (dir : String) (b : Bool)
       (s : List Image → List Image),
       run (some ⟨none, ao, co⟩) fs dir b s = ⟨true, [], .error (.keyError "images")⟩) := by
  refine ⟨?_, ?_, ?_⟩
  · intro io co fs dir b s; rfl
  · intro io ao fs dir b s; rfl
  · intro ao co fs dir b s; rfl

/-- C3, counterexample: on a categories list of length `K = 2` whose two
entries share id 5, the remap is not a bijection from the distinct ids in
first-seen order onto `1..K` — there is a single distinct id and it maps
to 2 (the later enumeration index wins), not to 1. -/
theorem c3_counterexample_duplicate_ids :
    ¬ bijectionClaim [⟨5, "a"⟩, ⟨5, "b"⟩] ∧
    cats [⟨5, "a"⟩, ⟨5, "b"⟩] 5 = some 2 := by
  constructor
  · intro h
    exact absurd h.1 (by decide)
  · decide

/-- C3, amended: whenever the category ids are pairwise distinct, the
remap is the claimed bijection: it sends the `j`-th id (list order =
first-seen order) to `j + 1`, covering exactly `1..K`; ids outside the
list are unmapped.  With duplicate ids the later enumeration index wins. -/
theorem c3_amended_bijection (cs : List Category)
    (h : (cs.map Category.id).Nodup) :
    bijectionClaim cs ∧ ∀ k, k ∉ cs.map Category.id → cats cs k = none := by
  have hfs : firstSeen (cs.map Category.id) = cs.map Category.id :=
    firstSeen_of_nodup _ h
  refine ⟨⟨?_, ?_⟩, fun k hk => cats_not_mem cs k hk⟩
  · rw [hfs]; simp
  · intro j hj
    have hj' : j < cs.length := by
      rw [hfs] at hj; simpa using hj
    have hj'' : j < (cs.map Category.id).length := by simpa using hj'
    have hget : (firstSeen (cs.map Category.id)).get ⟨j, hj⟩ =
        (cs.get ⟨j, hj'⟩).id := by
      simp only [List.get_eq_getElem, hfs, List.getElem_map]
    rw [hget]
    exact cats_get cs h j hj'

/-- C3 witness: the amended bijection at a concrete two-category list. -/
theorem c3_amended_bijection_witness :
    (([⟨5, "x"⟩, ⟨7, "y"⟩] : List Category).map Category.id).Nodup ∧
    bijectionClaim [⟨5, "x"⟩, ⟨7, "y"⟩] :=
  ⟨by decide, (c3_amended_bijection [⟨5, "x"⟩, ⟨7, "y"⟩] (by decide)).1⟩

/-- C2: every successfully built record's numeric field is the image id,
width and height, followed by one label per grouped record (in group
order, each the dict image of that record's category id) and then the
flattened bboxes, so label count = bbox count = group size and labels are
positionally aligned with their bboxes; an image with an empty group
yields exactly `[id, width, height]`; and the spec's single-image scenario
yields exactly `[1, 10, 20, 1, 1, 2, 3, 4]`. -/
theorem c2_record_numeric_field :
    (∀ (cm : Int → Option Nat) (gs : Int → List Ann) (img : Image) (nums : List Int),
      finalData cm gs img = .ok nums →
      nums = [img.id, img.width, img.height]
        ++ (gs img.id).map (fun a => (((cm a.category_id).getD 0 : Nat) : Int))
        ++ ((gs img.id).map Ann.bbox).flatten ∧
      ((gs img.id).map (fun a => (((cm a.category_id).getD 0 : Nat) : Int))).length
        = (gs img.id).length ∧
      ((gs img.id).map Ann.bbox).length = (gs img.id).length ∧
      ∀ a ∈ gs img.id, (cm a.category_id).isSome) ∧
    (∀ (cm : Int → Option Nat) (gs : Int → List Ann) (img : Image),
      gs img.id = [] → finalData cm gs img = .ok [img.id, img.width, img.height]) ∧
    finalData (cats [cat5x]) (imgToAnns [ann1]) img1 = .ok [1, 10, 20, 1, 1, 2, 3, 4] := by
  refine ⟨?_, ?_, ?_⟩
  · intro cm gs img nums h
    obtain ⟨h1, h2⟩ := finalData_ok cm gs img nums h
    exact ⟨by simpa [mergedBboxes] using h1, by simp, by simp, h2⟩
  · intro cm gs img h
    exact finalData_empty cm gs img h
  · decide

/-- C2 witness: the structural decomposition applied at the spec's
single-image scenario. -/
theorem c2_record_numeric_field_witness :
    ([1, 10, 20, 1, 1, 2, 3, 4] : List Int) =
      [img1.id, img1.width, img1.height]
        ++ (imgToAnns [ann1] img1.id).map
            (fun a => ((((cats [cat5x]) a.category_id).getD 0 : Nat) : Int))
        ++ ((imgToAnns [ann1] img1.id).map Ann.bbox).flatten :=
  (c2_record_numeric_field.1 (cats [cat5x]) (imgToAnns [ann1]) img1
    [1, 10, 20, 1, 1, 2, 3, 4] (by decide)).1

/-- Transport of a positional access along an equality of lists. -/
theorem list_get_cast {α : Type} (l l' : List α) (h : l = l') (j : Nat)
    (hj : j < l.length) (hj' : j < l'.length) :
    l.get ⟨j, hj⟩ = l'.get ⟨j, hj'⟩ := by
  subst h
  rfl

/-- C4: when the JSON parsed, the "images" key is present and no image
read or category lookup fails, the run succeeds, the container holds one
index entry per entry of the input "images" list, and the `j`-th produced
record is written under index key `j` with header flags `0`, label field
the full numeric record of its image, record id `j`, reserved `0`,
followed by that image's raw bytes. -/
theorem c4_one_entry_per_image (ds : Dataset) (imgs0 : List Image)
    (fs : String → Option Bytes) (dir : String) (doShuffle : Bool)
    (shuffler : List Image → List Image)
    (himg : ds.images = some imgs0)
    (hperm : doShuffle = true → (shuffler imgs0).Perm imgs0)
    (hfs : ∀ img ∈ imgs0, (fs (pathJoin dir img.file_name)).isSome)
    (hcat : ∀ img ∈ imgs0, ∀ a ∈ imgToAnns (ds.anns.getD []) img.id,
      ((cats (ds.cats_.getD [])) a.category_id).isSome) :
    (run (some ds) fs dir doShuffle shuffler).result = .ok () ∧
    (run (some ds) fs dir doShuffle shuffler).entries.length = imgs0.length ∧
    ∀ j (hj : j < (run (some ds) fs dir doShuffle shuffler).entries.length),
      ∃ (img : Image) (nums : List Int) (b : Bytes),
        finalData (cats (ds.cats_.getD [])) (imgToAnns (ds.anns.getD [])) img = .ok nums ∧
        fs (pathJoin dir img.file_name) = some b ∧
        (run (some ds) fs dir doShuffle shuffler).entries.get ⟨j, hj⟩ =
          (j, ⟨⟨0, nums, (j : Int), 0⟩, b⟩) := by
  set cm := cats (ds.cats_.getD []) with hcm
  set gs := imgToAnns (ds.anns.getD []) with hgs
  set images := if doShuffle then shuffler imgs0 else imgs0 with himages
  have hmem : ∀ img ∈ images, img ∈ imgs0 := by
    intro img hi
    by_cases hd : doShuffle
    · exact ((hperm hd).mem_iff).mp (by simpa [himages, hd] using hi)
    · simpa [himages, hd] using hi
  have hlen : images.length = imgs0.length := by
    by_cases hd : doShuffle
    · simpa [himages, hd] using (hperm hd).length_eq
    · simp [himages, hd]
  have hrun := run_some_eq ds imgs0 fs dir doShuffle shuffler himg
  have hpi := processImages_ok fs dir cm gs images 0
    (fun i hi => hfs i (hmem i hi)) (fun i hi => hcat i (hmem i hi))
  have hE : (run (some ds) fs dir doShuffle shuffler).entries =
      entriesSpec fs dir cm gs images 0 := by
    rw [hrun, hpi]
  have hR : (run (some ds) fs dir doShuffle shuffler).result = .ok () := by
    rw [hrun, hpi]
  refine ⟨hR, ?_, ?_⟩
  · rw [hE, entriesSpec_length, hlen]
  · intro j hj
    have hj2 : j < (entriesSpec fs dir cm gs images 0).length := by
      rw [← hE]; exact hj
    have hj1 : j < images.length := by
      rw [entriesSpec_length] at hj2; exact hj2
    have hmemj : images.get ⟨j, hj1⟩ ∈ images := List.get_mem images j hj1
    obtain ⟨b, hb⟩ := Option.isSome_iff_exists.mp (hfs _ (hmem _ hmemj))
    have hfd := finalData_isSome cm gs (images.get ⟨j, hj1⟩) (hcat _ (hmem _ hmemj))
    refine ⟨images.get ⟨j, hj1⟩, _, b, hfd, hb, ?_⟩
    have hget := entriesSpec_get fs dir cm gs images 0 j hj1 hj2
    rw [list_get_cast _ _ hE j hj hj2, hget]
    simp only [List.get_eq_getElem] at hfd hb
    simp [entryOf, hfd, hb, Except.toOption]

/-- C4 witness: the success path at the spec's single-image scenario. -/
theorem c4_one_entry_per_image_witness :
    (run (some ⟨some [img1], some [ann1], some [cat5x]⟩) fs10 "d" false id).result
      = .ok () ∧
    (run (some ⟨some [img1], some [ann1], some [cat5x]⟩) fs10 "d" false id).entries.length
      = 1 := by
  have h := c4_one_entry_per_image ⟨some [img1], some [ann1], some [cat5x]⟩ [img1]
    fs10 "d" false id rfl (fun hd => by cases hd) (by decide) (by decide)
  exact ⟨h.1, h.2.1⟩

/-- C5: shuffling is enabled exactly when a fourth positional CLI argument
is present (`len(sys.argv) > 4`); with shuffling off the written
label/payload contents follow the input "images" list order; with
shuffling on (the applied permutation being a permutation of the list)
the written contents are a permutation of the unshuffled ones; and the
output is a function of the permutation the seeded PRNG produces, hence
deterministic under a fixed seed. -/
theorem c5_shuffle_toggle_and_permutation (argv : List String) (ds : Dataset)
    (imgs0 : List Image) (fs : String → Option Bytes) (dir : String)
    (shuffler : List Image → List Image)
    (himg : ds.images = some imgs0)
    (hperm : (shuffler imgs0).Perm imgs0)
    (hfs : ∀ img ∈ imgs0, (fs (pathJoin dir img.file_name)).isSome)
    (hcat : ∀ img ∈ imgs0, ∀ a ∈ imgToAnns (ds.anns.getD []) img.id,
      ((cats (ds.cats_.getD [])) a.category_id).isSome) :
    (shuffleFlag argv = true ↔ 4 < argv.length) ∧
    ((run (some ds) fs dir false shuffler).entries.map
        (fun e => (e.2.header.label, e.2.data)) =
      imgs0.map (fun img =>
        ((finalData (cats (ds.cats_.getD [])) (imgToAnns (ds.anns.getD [])) img).toOption.getD [],
         (fs (pathJoin dir img.file_name)).getD []))) ∧
    ((run (some ds) fs dir true shuffler).entries.map
        (fun e => (e.2.header.label, e.2.data))).Perm
      ((run (some ds) fs dir false shuffler).entries.map
        (fun e => (e.2.header.label, e.2.data))) ∧
    (∀ s₂ : List Image → List Image, s₂ imgs0 = shuffler imgs0 →
      run (some ds) fs dir true s₂ = run (some ds) fs dir true shuffler) := by
  set cm := cats (ds.cats_.getD []) with hcm
  set gs := imgToAnns (ds.anns.getD []) with hgs
  have hmem : ∀ img ∈ shuffler imgs0, img ∈ imgs0 := fun i hi => hperm.mem_iff.mp hi
  have hpiF := processImages_ok fs dir cm gs imgs0 0 hfs hcat
  have hpiT := processImages_ok fs dir cm gs (shuffler imgs0) 0
    (fun i hi => hfs i (hmem i hi)) (fun i hi => hcat i (hmem i hi))
  have hEF : (run (some ds) fs dir false shuffler).entries =
      entriesSpec fs dir cm gs imgs0 0 := by
    rw [run_some_eq ds imgs0 fs dir false shuffler himg]
    simp [hpiF]
  have hET : (run (some ds) fs dir true shuffler).entries =
      entriesSpec fs dir cm gs (shuffler imgs0) 0 := by
    rw [run_some_eq ds imgs0 fs dir true shuffler himg]
    simp [hpiT]
  refine ⟨by simp [shuffleFlag], ?_, ?_, ?_⟩
  · rw [hEF]
    exact entriesSpec_map_content fs dir cm gs imgs0 0
  · rw [hEF, hET, entriesSpec_map_content fs dir cm gs imgs0 0,
        entriesSpec_map_content fs dir cm gs (shuffler imgs0) 0]
    exact hperm.map _
  · intro s₂ hs
    rw [run_some_eq ds imgs0 fs dir true s₂ himg,
        run_some_eq ds imgs0 fs dir true shuffler himg]
    simp [hs]

/-- C5 witness: the flag at a five-element argv, and the shuffled run's
contents being a permutation of the unshuffled run's, at a concrete
two-image dataset with `List.reverse` as the applied permutation. -/
theorem c5_shuffle_toggle_and_permutation_witness :
    (shuffleFlag ["p", "a", "i", "o", "x"] = true ↔
      4 < (["p", "a", "i", "o", "x"] : List String).length) ∧
    ((run (some ⟨some [img1, img1b], some [ann1], some [cat5x]⟩) fs10 "d" true
        List.reverse).entries.map (fun e => (e.2.header.label, e.2.data))).Perm
      ((run (some ⟨some [img1, img1b], some [ann1], some [cat5x]⟩) fs10 "d" false
        List.reverse).entries.map (fun e => (e.2.header.label, e.2.data))) := by
  have h := c5_shuffle_toggle_and_permutation ["p", "a", "i", "o", "x"]
    ⟨some [img1, img1b], some [ann1], some [cat5x]⟩ [img1, img1b] fs10 "d"
    List.reverse rfl (by decide) (by decide) (by decide)
  exact ⟨h.1, h.2.2.1⟩

/-- C7: when the first failure of the processed sequence is a missing or
unreadable image file, the run dies with that `IOError` before writing an
index entry for the failing image: the entries written are exactly those
of a fully successful run over the preceding images (a structurally valid
prefix), one per prior image, with every written index key below the
failing image's position. -/
theorem c7_missing_file_valid_prefix (ds : Dataset) (imgs0 pre post : List Image)
    (bad : Image) (fs : String → Option Bytes) (dir : String) (doShuffle : Bool)
    (shuffler : List Image → List Image)
    (himg : ds.images = some imgs0)
    (hsplit : (if doShuffle then shuffler imgs0 else imgs0) = pre ++ bad :: post)
    (hbad : fs (pathJoin dir bad.file_name) = none)
    (hfs : ∀ img ∈ pre, (fs (pathJoin dir img.file_name)).isSome)
    (hcat : ∀ img ∈ pre, ∀ a ∈ imgToAnns (ds.anns.getD []) img.id,
      ((cats (ds.cats_.getD [])) a.category_id).isSome) :
    (run (some ds) fs dir doShuffle shuffler).result =
      .error (.ioError (pathJoin dir bad.file_name)) ∧
    processImages fs dir (cats (ds.cats_.getD [])) (imgToAnns (ds.anns.getD [])) pre 0 =
      ((run (some ds) fs dir doShuffle shuffler).entries, .ok ()) ∧
    (run (some ds) fs dir doShuffle shuffler).entries.length = pre.length ∧
    ∀ e ∈ (run (some ds) fs dir doShuffle shuffler).entries, e.1 < pre.length := by
  set cm := cats (ds.cats_.getD []) with hcm
  set gs := imgToAnns (ds.anns.getD []) with hgs
  have herr := processImages_io_err fs dir cm gs bad post hbad pre 0 hfs hcat
  have hE : (run (some ds) fs dir doShuffle shuffler).entries =
      entriesSpec fs dir cm gs pre 0 := by
    rw [run_some_eq ds imgs0 fs dir doShuffle shuffler himg, hsplit, herr]
  have hR : (run (some ds) fs dir doShuffle shuffler).result =
      .error (.ioError (pathJoin dir bad.file_name)) := by
    rw [run_some_eq ds imgs0 fs dir doShuffle shuffler himg, hsplit, herr]
  refine ⟨hR, ?_, ?_, ?_⟩
  · rw [hE]
    exact processImages_ok fs dir cm gs pre 0 hfs hcat
  · rw [hE, entriesSpec_length]
  · intro e he
    rw [hE] at he
    simpa using entriesSpec_keys fs dir cm gs pre 0 e he

/-- C7 witness: the missing-file abort at a concrete two-image dataset
whose second image file is absent. -/
theorem c7_missing_file_valid_prefix_witness :
    (run (some ⟨some [img1, imgMissing], some [ann1], some [cat5x]⟩) fs10 "d" false
        id).result = .error (.ioError (pathJoin "d" imgMissing.file_name)) ∧
    (run (some ⟨some [img1, imgMissing], some [ann1], some [cat5x]⟩) fs10 "d" false
        id).entries.length = 1 := by
  have h := c7_missing_file_valid_prefix
    ⟨some [img1, imgMissing], some [ann1], some [cat5x]⟩ [img1, imgMissing]
    [img1] [] imgMissing fs10 "d" false id rfl rfl (by decide) (by decide) (by decide)
  exact ⟨h.1, h.2.2.1⟩

/-- C8: when an annotation grouped under a processed image carries a
category id absent from the categories list, and everything before that
image succeeded, the run aborts mid-run with the `KeyError` of the
category lookup, raised while building that image's record — after the
container was created and the prior entries were written, not at load
time: the loader itself never fails, the error is `finalData`'s. -/
theorem c8_missing_category_aborts_mid_run (ds : Dataset) (imgs0 pre post : List Image)
    (bad : Image) (fs : String → Option Bytes) (dir : String) (doShuffle : Bool)
    (shuffler : List Image → List Image)
    (himg : ds.images = some imgs0)
    (hsplit : (if doShuffle then shuffler imgs0 else imgs0) = pre ++ bad :: post)
    (hbadfs : (fs (pathJoin dir bad.file_name)).isSome)
    (hmiss : ∃ a ∈ imgToAnns (ds.anns.getD []) bad.id,
      (cats (ds.cats_.getD [])) a.category_id = none)
    (hfs : ∀ img ∈ pre, (fs (pathJoin dir img.file_name)).isSome)
    (hcat : ∀ img ∈ pre, ∀ a ∈ imgToAnns (ds.anns.getD []) img.id,
      ((cats (ds.cats_.getD [])) a.category_id).isSome) :
    ∃ c, (cats (ds.cats_.getD [])) c = none ∧
      finalData (cats (ds.cats_.getD [])) (imgToAnns (ds.anns.getD [])) bad =
        .error (.catKeyError c) ∧
      (run (some ds) fs dir doShuffle shuffler).result = .error (.catKeyError c) ∧
      (run (some ds) fs dir doShuffle shuffler).containerCreated = true ∧
      processImages fs dir (cats (ds.cats_.getD [])) (imgToAnns (ds.anns.getD [])) pre 0 =
        ((run (some ds) fs dir doShuffle shuffler).entries, .ok ()) ∧
      (run (some ds) fs dir doShuffle shuffler).entries.length = pre.length := by
  set cm := cats (ds.cats_.getD []) with hcm
  set gs := imgToAnns (ds.anns.getD []) with hgs
  obtain ⟨c, hcn, hl⟩ := labelsOf_none cm (gs bad.id) hmiss
  have hfd := finalData_err cm gs bad _ hl
  obtain ⟨b, hb⟩ := Option.isSome_iff_exists.mp hbadfs
  have herr := processImages_build_err fs dir cm gs bad post b hb _ hfd pre 0 hfs hcat
  have hE : (run (some ds) fs dir doShuffle shuffler).entries =
      entriesSpec fs dir cm gs pre 0 := by
    rw [run_some_eq ds imgs0 fs dir doShuffle shuffler himg, hsplit, herr]
  have hR : (run (some ds) fs dir doShuffle shuffler).result =
      .error (.catKeyError c) := by
    rw [run_some_eq ds imgs0 fs dir doShuffle shuffler himg, hsplit, herr]
  have hC : (run (some ds) fs dir doShuffle shuffler).containerCreated = true := by
    rw [run_some_eq ds imgs0 fs dir doShuffle shuffler himg]
  refine ⟨c, hcn, hfd, hR, hC, ?_, ?_⟩
  · rw [hE]
    exact processImages_ok fs dir cm gs pre 0 hfs hcat
  · rw [hE, entriesSpec_length]

/-- C8 witness: the category-lookup abort at a dataset whose sole image
carries one grouped record with the unmapped category id 9. -/
theorem c8_missing_category_aborts_mid_run_witness :
    ∃ c, (cats [cat5x]) c = none ∧
      finalData (cats [cat5x]) (imgToAnns [annBad]) img1 = .error (.catKeyError c) ∧
      (run (some ⟨some [img1], some [annBad], some [cat5x]⟩) fs10 "d" false id).result =
        .error (.catKeyError c) ∧
      (run (some ⟨some [img1], some [annBad], some [cat5x]⟩) fs10 "d" false
        id).containerCreated = true := by
  have h := c8_missing_category_aborts_mid_run
    ⟨some [img1], some [annBad], some [cat5x]⟩ [img1] [] [] img1 fs10 "d" false id
    rfl rfl (by decide) ⟨annBad, by decide, by decide⟩ (by decide) (by decide)
  obtain ⟨c, h1, h2, h3, h4, _, _⟩ := h
  exact ⟨c, h1, h2, h3, h4⟩

/-- C9: an annotation whose `image_id` matches no image is grouped (it is
in its group's list) but never consumed: removing it from the input leaves
the entire run result — container entries and exit status — unchanged. -/
theorem c9_unreferenced_group_is_inert (imgs0 : List Image) (xs ys : List Ann)
    (a : Ann) (co : Option (List Category)) (fs : String → Option Bytes)
    (dir : String) (doShuffle : Bool) (shuffler : List Image → List Image)
    (ha : a.image_id ∉ imgs0.map Image.id)
    (hperm : doShuffle = true → (shuffler imgs0).Perm imgs0) :
    a ∈ imgToAnns (xs ++ a :: ys) a.image_id ∧
    run (some ⟨some imgs0, some (xs ++ a :: ys), co⟩) fs dir doShuffle shuffler =
      run (some ⟨some imgs0, some (xs ++ ys), co⟩) fs dir doShuffle shuffler := by
  constructor
  · rw [imgToAnns_eq_filter]
    refine List.mem_filter.mpr ⟨?_, by simp⟩
    exact List.mem_append.mpr (Or.inr (List.mem_cons_self a ys))
  · have hgs : ∀ img ∈ (if doShuffle then shuffler imgs0 else imgs0),
        imgToAnns (xs ++ a :: ys) img.id = imgToAnns (xs ++ ys) img.id := by
      intro img hi
      have himem : img ∈ imgs0 := by
        by_cases hd : doShuffle
        · exact ((hperm hd).mem_iff).mp (by simpa [hd] using hi)
        · simpa [hd] using hi
      have hne : a.image_id ≠ img.id := fun he =>
        ha (by rw [he]; exact List.mem_map_of_mem Image.id himem)
      exact imgToAnns_erase_middle xs ys a img.id hne
    have hpc := processImages_congr fs dir (cats (co.getD []))
      (imgToAnns (xs ++ a :: ys)) (imgToAnns (xs ++ ys))
      (if doShuffle then shuffler imgs0 else imgs0) 0 hgs
    rw [run_some_eq ⟨some imgs0, some (xs ++ a :: ys), co⟩ imgs0 fs dir doShuffle
          shuffler rfl,
        run_some_eq ⟨some imgs0, some (xs ++ ys), co⟩ imgs0 fs dir doShuffle
          shuffler rfl]
    simp only [Option.getD_some, hpc]

/-- C9 witness: dropping the orphan annotation (image id 99) from a
one-image dataset leaves the run result unchanged. -/
theorem c9_unreferenced_group_is_inert_witness :
    annOrphan ∈ imgToAnns [annOrphan] annOrphan.image_id ∧
    run (some ⟨some [img1], some [annOrphan], some [cat5x]⟩) fs10 "d" false id =
      run (some ⟨some [img1], some ([] : List Ann), some [cat5x]⟩) fs10 "d" false id := by
  have h := c9_unreferenced_group_is_inert [img1] [] [] annOrphan (some [cat5x])
    fs10 "d" false id (by decide) (fun hd => by cases hd)
  exact h

/-- C10: the record-building loop iterates the raw "images" list itself —
a successfully completed loop writes exactly one entry per list entry,
with no distinctness assumption on image ids — and on a list holding two
entries that share id 1, each entry yields its own record with its own
file bytes, width and height, both reusing the shared annotation group of
id 1; the by-id dicts, which keep only the last entry for a duplicated
key, influence no part of the output. -/
theorem c10_raw_images_list_drives_output :
    (∀ (fs : String → Option Bytes) (dir : String) (cm : Int → Option Nat)
       (gs : Int → List Ann) (l : List Image) (n : Nat),
       (processImages fs dir cm gs l n).2 = .ok () →
       (processImages fs dir cm gs l n).1.length = l.length) ∧
    run (some ⟨some [img1, img1b], some [ann1], some [cat5x]⟩) fs10 "d" false id =
      ⟨true, [(0, ⟨⟨0, [1, 10, 20, 1, 1, 2, 3, 4], 0, 0⟩, [7]⟩),
              (1, ⟨⟨0, [1, 30, 40, 1, 1, 2, 3, 4], 1, 0⟩, [8]⟩)], .ok ()⟩ ∧
    imgs [img1, img1b] 1 = some img1b ∧
    anns [ann1] 1 = some ann1 := by
  refine ⟨fun fs dir cm gs l n h => processImages_ok_length fs dir cm gs l n h,
    ?_, ?_, ?_⟩
  · decide
  · decide
  · decide

/-- C10 witness: the one-entry-per-list-entry law applied to the concrete
duplicate-id list. -/
theorem c10_raw_images_list_drives_output_witness :
    (processImages fs10 "d" (cats [cat5x]) (imgToAnns [ann1]) [img1, img1b] 0).1.length
      = 2 := by
  have h := c10_raw_images_list_drives_output.1 fs10 "d" (cats [cat5x])
    (imgToAnns [ann1]) [img1, img1b] 0 (by decide)
  exact h

end Coco
